import Mathlib

/-!
Verification development for the weekly-menu generator
(`weekly_menu_generator.py`).

The Python source is shallowly embedded below:
* a dish dict becomes the structure `Dish`; the optional JSON keys
  `has_lamb` / `has_spicy` become `Option Bool` fields, and the source's
  `d.get("has_lamb", False)` becomes `Option.getD false`;
* the Python set `used_dishes` is modelled as a `List String` used only
  through membership (insertion is `cons`, set subtraction is `filter`);
* `random.choice(lst)` is modelled by an oracle: the caller supplies
  `rand : Nat → Nat` and draw number `j` picks index `rand j % lst.length`;
  choosing from an empty list (an `IndexError` in Python) yields `none`;
* file reading in `load_dishes` is modelled by an explicit outcome value:
  success, the two exception classes the source's `try/except` catches
  (`FileNotFoundError`, `json.JSONDecodeError`), and any other exception
  raised while opening, reading or parsing the file (such as
  `PermissionError`, `IsADirectoryError` or `UnicodeDecodeError`), which
  the source does not catch; the embedded `load_dishes` returns `none`
  exactly when the source propagates the exception.
-/

namespace WeeklyMenu

/-- A dish record, as stored in `dishes.json`: a name plus the two optional
boolean tags.  A missing key is `none`. -/
structure Dish where
  name : String
  has_lamb : Option Bool
  has_spicy : Option Bool
deriving DecidableEq, Repr

/-- The catalog: the three category lists (`dishes["main_meat"]` etc.). -/
structure Catalog where
  main_meat : List Dish
  semi_meat : List Dish
  veggie : List Dish
deriving DecidableEq, Repr

/-- One entry of the returned weekly menu (the dict appended at the end of
each loop iteration of `generate_weekly_menu`). -/
structure DayPlan where
  day : String
  main_meat : String
  semi_meat : String
  veggie : String
deriving DecidableEq, Repr

/-- The mutable state of one generation run: the single shared
`used_dishes` set and the three `yesterday_dishes` entries. -/
structure GenState where
  used_dishes : List String
  y_main : Option String
  y_semi : Option String
  y_veg : Option String
deriving DecidableEq, Repr

/-- Result of `generate_weekly_menu`: `None` (infeasible), an uncaught
`IndexError` from `random.choice([])` (crash), or a 5-day menu. -/
inductive GenResult where
  | infeasible : GenResult
  | crash : GenResult
  | ok : List DayPlan → GenResult
deriving DecidableEq, Repr

/-- Outcome of the file read + JSON parse in `load_dishes`: success, the
two exception classes the source's `try/except` catches, and any other
exception raised by `open`/`read`/`json.load` (e.g. `PermissionError`,
`IsADirectoryError`, `UnicodeDecodeError`), which the source has no
handler for. -/
inductive LoadOutcome where
  | ok : Catalog → LoadOutcome
  | fileNotFound : LoadOutcome
  | jsonDecodeError : LoadOutcome
  | otherError : LoadOutcome
deriving DecidableEq, Repr

/-- The catalog literal `{"main_meat": [], "semi_meat": [], "veggie": []}`
returned by `load_dishes` on the caught failures. -/
def emptyCatalog : Catalog := { main_meat := [], semi_meat := [], veggie := [] }

/-- `load_dishes` (source lines 98-122): return the parsed file on success;
on `FileNotFoundError` or `json.JSONDecodeError` return the empty catalog.
Any other exception is not caught and propagates out of the function,
modelled by `none`. -/
def load_dishes : LoadOutcome → Option Catalog
  | .ok c => some c
  | .fileNotFound => some emptyCatalog
  | .jsonDecodeError => some emptyCatalog
  | .otherError => none

/-- `filter_dishes` (source lines 126-148): copy the list, then drop
lamb dishes when `no_lamb`, then drop spicy dishes when `no_spicy`;
missing tags default to `False`. -/
def filter_dishes (dishes : List Dish) (no_lamb no_spicy : Bool) : List Dish :=
  let f1 := if no_lamb then dishes.filter (fun d => !(d.has_lamb.getD false)) else dishes
  if no_spicy then f1.filter (fun d => !(d.has_spicy.getD false)) else f1

/-- The list comprehension at the start of each day (source lines 191-193):
dishes of the filtered list whose name is not in `used_dishes`. -/
def availableFor (filtered : List Dish) (used : List String) : List Dish :=
  filtered.filter (fun d => decide (d.name ∉ used))

/-- Python truthiness of `yesterday_dishes[cat]`: `None` and the empty
string are falsy, any other string is truthy. -/
def truthy : Option String → Bool
  | none => false
  | some s => decide (s ≠ "")

/-- The available list after the per-category reset block (source lines
197-203 for `main_meat`, similarly 205-209 and 211-215): if the available
list is empty, fall back to the full filtered list, minus yesterday's dish
when `yesterday_dishes[cat]` is truthy and more than one dish remains. -/
def resetAvail (filtered avail : List Dish) (yest : Option String) : List Dish :=
  if avail.isEmpty then
    if truthy yest && decide (filtered.length > 1) then
      filtered.filter (fun dd => decide (dd.name ≠ yest.getD ""))
    else filtered
  else avail

/-- The `used_dishes` set after one category's reset block: when the
available list is empty the names of every dish of that category's
filtered list are subtracted from the shared set (source lines 198, 206,
212: `used_dishes -= {d["name"] for d in ..._filtered}`). -/
def resetUsed (filtered avail : List Dish) (used : List String) : List String :=
  if avail.isEmpty then used.filter (fun n => decide (n ∉ filtered.map Dish.name)) else used

/-- `random.choice` on index oracle value `k`: an element for a non-empty
list, `none` (Python: `IndexError`) for an empty one. -/
def pick (l : List Dish) (k : Nat) : Option Dish :=
  l[k % l.length]?

/-- The main-meat available list a day works with: computed from the shared
set at the start of the day, then passed through the reset block. -/
def mainAvail (mF : List Dish) (st : GenState) : List Dish :=
  resetAvail mF (availableFor mF st.used_dishes) st.y_main

/-- The semi-meat available list of a day. -/
def semiAvail (sF : List Dish) (st : GenState) : List Dish :=
  resetAvail sF (availableFor sF st.used_dishes) st.y_semi

/-- The veggie available list of a day. -/
def vegAvail (vF : List Dish) (st : GenState) : List Dish :=
  resetAvail vF (availableFor vF st.used_dishes) st.y_veg

/-- The shared `used_dishes` set after the three reset blocks of a day ran
in source order (main, then semi, then veggie).  Each block tests its own
availability list, which was computed from the start-of-day set. -/
def usedAfterResets (mF sF vF : List Dish) (st : GenState) : List String :=
  resetUsed vF (availableFor vF st.used_dishes)
    (resetUsed sF (availableFor sF st.used_dishes)
      (resetUsed mF (availableFor mF st.used_dishes) st.used_dishes))

/-- One iteration of the day loop (source lines 189-237): compute the three
available lists from the shared set, run the three reset blocks, draw the
three choices, record the chosen names in the shared set and in
`yesterday_dishes`, and emit the day's menu entry. -/
def dayStep (mF sF vF : List Dish) (st : GenState) (d : String) (k1 k2 k3 : Nat) :
    Option (GenState × DayPlan) :=
  match pick (mainAvail mF st) k1, pick (semiAvail sF st) k2, pick (vegAvail vF st) k3 with
  | some m, some s, some v =>
      some ({ used_dishes := v.name :: s.name :: m.name :: usedAfterResets mF sF vF st,
              y_main := some m.name, y_semi := some s.name, y_veg := some v.name },
            { day := d, main_meat := m.name, semi_meat := s.name, veggie := v.name })
  | _, _, _ => none

/-- The day loop over the remaining day labels; draw number `3*i + c` is
the category-`c` draw of day `i`.  A `none` from any draw (Python's
`IndexError`) aborts the run. -/
def runDays (ds : List String) (mF sF vF : List Dish) (st : GenState) (rand : Nat → Nat)
    (i : Nat) : Option (List DayPlan) :=
  match ds with
  | [] => some []
  | d :: rest =>
    (dayStep mF sF vF st d (rand (3 * i)) (rand (3 * i + 1)) (rand (3 * i + 2))).bind
      (fun p => (runDays rest mF sF vF p.1 rand (i + 1)).map (fun plan => p.2 :: plan))

/-- The day labels (source line 187). -/
def weekDays : List String := ["周一", "周二", "周三", "周四", "周五"]

/-- The state at the top of `generate_weekly_menu`: empty shared set and
no `yesterday_dishes` entries (source lines 180-184). -/
def initState : GenState :=
  { used_dishes := [], y_main := none, y_semi := none, y_veg := none }

/-- `generate_weekly_menu` (source lines 150-239): filter the three
category lists, return `None` when any filtered list is empty, otherwise
run the 5-day loop. -/
def generate_weekly_menu (cat : Catalog) (no_lamb no_spicy : Bool) (rand : Nat → Nat) :
    GenResult :=
  let mF := filter_dishes cat.main_meat no_lamb no_spicy
  let sF := filter_dishes cat.semi_meat no_lamb no_spicy
  let vF := filter_dishes cat.veggie no_lamb no_spicy
  if mF.isEmpty || sF.isEmpty || vF.isEmpty then .infeasible
  else
    match runDays weekDays mF sF vF initState rand 0 with
    | some plan => .ok plan
    | none => .crash

/-! ### Basic facts about the embedded operations -/

theorem pick_mem {l : List Dish} {k : Nat} {d : Dish} (h : pick l k = some d) : d ∈ l := by
  unfold pick at h
  rw [List.getElem?_eq_some] at h
  obtain ⟨hlt, rfl⟩ := h
  exact List.getElem_mem hlt

theorem pick_ne_nil {l : List Dish} {k : Nat} {d : Dish} (h : pick l k = some d) : l ≠ [] :=
  List.ne_nil_of_mem (pick_mem h)

theorem pick_eq_some_of_ne_nil {l : List Dish} (h : l ≠ []) (k : Nat) :
    ∃ d, pick l k = some d := by
  have hpos : 0 < l.length := List.length_pos.mpr h
  have hlt : k % l.length < l.length := Nat.mod_lt k hpos
  exact ⟨l[k % l.length], by unfold pick; exact List.getElem?_eq_getElem hlt⟩

theorem mem_availableFor {f : List Dish} {u : List String} {d : Dish} :
    d ∈ availableFor f u ↔ d ∈ f ∧ d.name ∉ u := by
  simp [availableFor, List.mem_filter]

theorem availableFor_subset (f : List Dish) (u : List String) : availableFor f u ⊆ f :=
  fun _ hd => (List.mem_filter.mp hd).1

theorem availableFor_eq_nil_iff {f : List Dish} {u : List String} :
    availableFor f u = [] ↔ ∀ d ∈ f, d.name ∈ u := by
  simp [availableFor, List.filter_eq_nil_iff]

theorem resetAvail_subset {f a : List Dish} {y : Option String} (ha : a ⊆ f) :
    resetAvail f a y ⊆ f := by
  unfold resetAvail
  split
  · split
    · exact fun d hd => (List.mem_filter.mp hd).1
    · exact fun d hd => hd
  · exact ha

theorem exists_dish_name_ne {f : List Dish} (hnd : (f.map Dish.name).Nodup)
    (h2 : 1 < f.length) (y : String) : ∃ d ∈ f, d.name ≠ y := by
  cases f with
  | nil => simp at h2
  | cons d1 tl =>
    cases tl with
    | nil => simp at h2
    | cons d2 rest =>
      have hne : d1.name ≠ d2.name := by
        simp only [List.map_cons, List.nodup_cons, List.mem_cons, not_or] at hnd
        exact hnd.1.1
      by_cases hy : d1.name = y
      · refine ⟨d2, by simp, fun h => hne ?_⟩
        rw [hy, h]
      · exact ⟨d1, by simp, hy⟩

theorem resetAvail_ne_nil {f a : List Dish} {y : Option String} (hf : f ≠ [])
    (hnd : (f.map Dish.name).Nodup) : resetAvail f a y ≠ [] := by
  unfold resetAvail
  split
  · split
    · next hcond =>
      have h2 : 1 < f.length := by
        rcases Bool.and_eq_true _ _ |>.mp hcond with ⟨-, hlen⟩
        exact of_decide_eq_true hlen
      obtain ⟨d, hd, hne⟩ := exists_dish_name_ne hnd h2 (y.getD "")
      exact List.ne_nil_of_mem (List.mem_filter.mpr ⟨hd, decide_eq_true hne⟩)
    · exact hf
  · next hne => exact fun hnil => hne (by rw [hnil]; rfl)

theorem mem_resetUsed {f a : List Dish} {u : List String} {n : String} :
    n ∈ resetUsed f a u ↔ n ∈ u ∧ (a.isEmpty = true → n ∉ f.map Dish.name) := by
  unfold resetUsed
  split
  · next he => simp [List.mem_filter, he]
  · next he => simp [he]

theorem mem_resetUsed_of_notin {f a : List Dish} {u : List String} {n : String}
    (hn : n ∉ f.map Dish.name) : n ∈ resetUsed f a u ↔ n ∈ u := by
  rw [mem_resetUsed]
  exact ⟨fun h => h.1, fun h => ⟨h, fun _ => hn⟩⟩

theorem resetUsed_subset {f a : List Dish} {u : List String} : resetUsed f a u ⊆ u := by
  intro n hn
  exact (mem_resetUsed.mp hn).1

/-! ### Inversion principles for the day loop -/

theorem dayStep_eq_some_iff {mF sF vF : List Dish} {st : GenState} {d : String}
    {k1 k2 k3 : Nat} {st' : GenState} {e : DayPlan} :
    dayStep mF sF vF st d k1 k2 k3 = some (st', e) ↔
      ∃ m s v, pick (mainAvail mF st) k1 = some m ∧ pick (semiAvail sF st) k2 = some s ∧
        pick (vegAvail vF st) k3 = some v ∧
        st' = { used_dishes := v.name :: s.name :: m.name :: usedAfterResets mF sF vF st,
                y_main := some m.name, y_semi := some s.name, y_veg := some v.name } ∧
        e = { day := d, main_meat := m.name, semi_meat := s.name, veggie := v.name } := by
  unfold dayStep
  constructor
  · intro h
    cases hm : pick (mainAvail mF st) k1 with
    | none => rw [hm] at h; simp at h
    | some m =>
      cases hs : pick (semiAvail sF st) k2 with
      | none => rw [hm, hs] at h; simp at h
      | some s =>
        cases hv : pick (vegAvail vF st) k3 with
        | none => rw [hm, hs, hv] at h; simp at h
        | some v =>
          rw [hm, hs, hv] at h
          simp only [Option.some.injEq, Prod.mk.injEq] at h
          exact ⟨m, s, v, rfl, rfl, rfl, h.1.symm, h.2.symm⟩
  · rintro ⟨m, s, v, hm, hs, hv, rfl, rfl⟩
    rw [hm, hs, hv]

theorem runDays_cons (d : String) (rest : List String) (mF sF vF : List Dish)
    (st : GenState) (rand : Nat → Nat) (i : Nat) :
    runDays (d :: rest) mF sF vF st rand i =
      (dayStep mF sF vF st d (rand (3 * i)) (rand (3 * i + 1)) (rand (3 * i + 2))).bind
        (fun p => (runDays rest mF sF vF p.1 rand (i + 1)).map (fun plan => p.2 :: plan)) :=
  rfl

theorem runDays_cons_eq_some {d : String} {rest : List String} {mF sF vF : List Dish}
    {st : GenState} {rand : Nat → Nat} {i : Nat} {plan : List DayPlan} :
    runDays (d :: rest) mF sF vF st rand i = some plan ↔
      ∃ st' e plan', dayStep mF sF vF st d (rand (3 * i)) (rand (3 * i + 1))
          (rand (3 * i + 2)) = some (st', e) ∧
        runDays rest mF sF vF st' rand (i + 1) = some plan' ∧ plan = e :: plan' := by
  rw [runDays_cons]
  simp only [Option.bind_eq_some, Option.map_eq_some', Prod.exists]
  constructor
  · rintro ⟨st', e, hd, plan', hr, rfl⟩
    exact ⟨st', e, plan', hd, hr, rfl⟩
  · rintro ⟨st', e, plan', hd, hr, rfl⟩
    exact ⟨st', e, hd, plan', hr, rfl⟩

theorem generate_eq (cat : Catalog) (nl ns : Bool) (rand : Nat → Nat) :
    generate_weekly_menu cat nl ns rand =
      if (filter_dishes cat.main_meat nl ns).isEmpty ||
          (filter_dishes cat.semi_meat nl ns).isEmpty ||
          (filter_dishes cat.veggie nl ns).isEmpty then .infeasible
      else
        match runDays weekDays (filter_dishes cat.main_meat nl ns)
            (filter_dishes cat.semi_meat nl ns) (filter_dishes cat.veggie nl ns)
            initState rand 0 with
        | some plan => .ok plan
        | none => .crash := rfl

theorem generate_ok_iff {cat : Catalog} {nl ns : Bool} {rand : Nat → Nat}
    {plan : List DayPlan} :
    generate_weekly_menu cat nl ns rand = .ok plan ↔
      filter_dishes cat.main_meat nl ns ≠ [] ∧ filter_dishes cat.semi_meat nl ns ≠ [] ∧
      filter_dishes cat.veggie nl ns ≠ [] ∧
      runDays weekDays (filter_dishes cat.main_meat nl ns) (filter_dishes cat.semi_meat nl ns)
        (filter_dishes cat.veggie nl ns) initState rand 0 = some plan := by
  rw [generate_eq]
  split
  · next hc =>
    simp only [Bool.or_eq_true, List.isEmpty_iff] at hc
    constructor
    · intro h; exact absurd h (by simp)
    · rintro ⟨h1, h2, h3, -⟩
      exact hc.elim
        (fun h' => h'.elim (fun h => absurd h h1) (fun h => absurd h h2))
        (fun h => absurd h h3)
  · next hc =>
    have hne : filter_dishes cat.main_meat nl ns ≠ [] ∧ filter_dishes cat.semi_meat nl ns ≠ [] ∧
        filter_dishes cat.veggie nl ns ≠ [] := by
      rcases Bool.not_eq_true _ |>.mp hc |> Bool.or_eq_false_iff.mp with ⟨hab, h3⟩
      rcases Bool.or_eq_false_iff.mp hab with ⟨h1, h2⟩
      exact ⟨List.isEmpty_eq_false.mp h1, List.isEmpty_eq_false.mp h2,
        List.isEmpty_eq_false.mp h3⟩
    obtain ⟨h1, h2, h3⟩ := hne
    generalize runDays weekDays (filter_dishes cat.main_meat nl ns)
        (filter_dishes cat.semi_meat nl ns) (filter_dishes cat.veggie nl ns)
        initState rand 0 = r
    cases r with
    | none => simp [h1, h2, h3]
    | some p => simp [h1, h2, h3]

/-! ### Facts about `filter_dishes` -/

theorem mem_filter_dishes {l : List Dish} {nl ns : Bool} {d : Dish} :
    d ∈ filter_dishes l nl ns ↔
      d ∈ l ∧ (nl = true → d.has_lamb.getD false = false) ∧
        (ns = true → d.has_spicy.getD false = false) := by
  cases nl <;> cases ns <;>
    simp [filter_dishes, List.mem_filter, and_assoc, and_comm]

theorem filter_dishes_sublist (l : List Dish) (nl ns : Bool) :
    (filter_dishes l nl ns).Sublist l := by
  cases nl <;> cases ns <;> simp only [filter_dishes, if_true, if_false, Bool.false_eq_true]
  · exact List.Sublist.refl l
  · exact List.filter_sublist l
  · exact List.filter_sublist l
  · exact (List.filter_sublist _).trans (List.filter_sublist l)

theorem filter_dishes_names_nodup {l : List Dish} (nl ns : Bool)
    (h : (l.map Dish.name).Nodup) : ((filter_dishes l nl ns).map Dish.name).Nodup :=
  h.sublist ((filter_dishes_sublist l nl ns).map Dish.name)

/-! ### Per-category availability facts inside a day -/

theorem mainAvail_subset (mF : List Dish) (st : GenState) : mainAvail mF st ⊆ mF := by
  unfold mainAvail
  exact resetAvail_subset (availableFor_subset _ _)

theorem semiAvail_subset (sF : List Dish) (st : GenState) : semiAvail sF st ⊆ sF := by
  unfold semiAvail
  exact resetAvail_subset (availableFor_subset _ _)

theorem vegAvail_subset (vF : List Dish) (st : GenState) : vegAvail vF st ⊆ vF := by
  unfold vegAvail
  exact resetAvail_subset (availableFor_subset _ _)

theorem dayStep_isSome {mF sF vF : List Dish} (st : GenState) (d : String) (k1 k2 k3 : Nat)
    (hm : mF ≠ []) (hs : sF ≠ []) (hv : vF ≠ [])
    (nm : (mF.map Dish.name).Nodup) (nsm : (sF.map Dish.name).Nodup)
    (nvm : (vF.map Dish.name).Nodup) :
    ∃ st' e, dayStep mF sF vF st d k1 k2 k3 = some (st', e) := by
  have hmA : mainAvail mF st ≠ [] := by unfold mainAvail; exact resetAvail_ne_nil hm nm
  have hsA : semiAvail sF st ≠ [] := by unfold semiAvail; exact resetAvail_ne_nil hs nsm
  have hvA : vegAvail vF st ≠ [] := by unfold vegAvail; exact resetAvail_ne_nil hv nvm
  obtain ⟨m, hmp⟩ := pick_eq_some_of_ne_nil hmA k1
  obtain ⟨s, hsp⟩ := pick_eq_some_of_ne_nil hsA k2
  obtain ⟨v, hvp⟩ := pick_eq_some_of_ne_nil hvA k3
  exact ⟨_, _, dayStep_eq_some_iff.mpr ⟨m, s, v, hmp, hsp, hvp, rfl, rfl⟩⟩

/-! ### Whole-week facts -/

theorem runDays_map_day : ∀ (ds : List String) (mF sF vF : List Dish) (st : GenState)
    (rand : Nat → Nat) (i : Nat) (plan : List DayPlan),
    runDays ds mF sF vF st rand i = some plan → plan.map DayPlan.day = ds := by
  intro ds
  induction ds with
  | nil =>
    intro mF sF vF st rand i plan h
    simp only [runDays, Option.some.injEq] at h
    rw [← h]
    rfl
  | cons d rest ih =>
    intro mF sF vF st rand i plan h
    rw [runDays_cons_eq_some] at h
    obtain ⟨st', e, plan', hd, hr, rfl⟩ := h
    obtain ⟨m, s, v, -, -, -, -, he⟩ := dayStep_eq_some_iff.mp hd
    rw [List.map_cons, ih mF sF vF st' rand (i + 1) plan' hr, he]

theorem runDays_isSome : ∀ (ds : List String) {mF sF vF : List Dish} (st : GenState)
    (rand : Nat → Nat) (i : Nat), mF ≠ [] → sF ≠ [] → vF ≠ [] →
    (mF.map Dish.name).Nodup → (sF.map Dish.name).Nodup → (vF.map Dish.name).Nodup →
    ∃ plan, runDays ds mF sF vF st rand i = some plan := by
  intro ds
  induction ds with
  | nil => intro mF sF vF st rand i _ _ _ _ _ _; exact ⟨[], rfl⟩
  | cons d rest ih =>
    intro mF sF vF st rand i hm hs hv nm nsm nvm
    obtain ⟨st', e, hd⟩ := dayStep_isSome st d (rand (3 * i)) (rand (3 * i + 1))
      (rand (3 * i + 2)) hm hs hv nm nsm nvm
    obtain ⟨plan', hr⟩ := ih st' rand (i + 1) hm hs hv nm nsm nvm
    exact ⟨e :: plan', runDays_cons_eq_some.mpr ⟨st', e, plan', hd, hr, rfl⟩⟩

theorem runDays_mem : ∀ (ds : List String) (mF sF vF : List Dish) (st : GenState)
    (rand : Nat → Nat) (i : Nat) (plan : List DayPlan),
    runDays ds mF sF vF st rand i = some plan → ∀ e ∈ plan,
    (∃ m ∈ mF, m.name = e.main_meat) ∧ (∃ s ∈ sF, s.name = e.semi_meat) ∧
    (∃ v ∈ vF, v.name = e.veggie) := by
  intro ds
  induction ds with
  | nil =>
    intro mF sF vF st rand i plan h e he
    simp only [runDays, Option.some.injEq] at h
    rw [← h] at he
    exact absurd he (List.not_mem_nil e)
  | cons d rest ih =>
    intro mF sF vF st rand i plan h e he
    rw [runDays_cons_eq_some] at h
    obtain ⟨st', e₀, plan', hd, hr, rfl⟩ := h
    rcases List.mem_cons.mp he with rfl | hmem
    · obtain ⟨m, s, v, hmp, hsp, hvp, -, he0⟩ := dayStep_eq_some_iff.mp hd
      subst he0
      exact ⟨⟨m, mainAvail_subset mF st (pick_mem hmp), rfl⟩,
        ⟨s, semiAvail_subset sF st (pick_mem hsp), rfl⟩,
        ⟨v, vegAvail_subset vF st (pick_mem hvp), rfl⟩⟩
    · exact ih mF sF vF st' rand (i + 1) plan' hr e hmem

/-! ### No-repeat across consecutive days -/

theorem resetAvail_of_ne_nil {f a : List Dish} {y : Option String} (ha : a ≠ []) :
    resetAvail f a y = a := by
  unfold resetAvail
  rw [if_neg (by simpa using ha)]

theorem resetUsed_of_ne_nil {f a : List Dish} {u : List String} (ha : a ≠ []) :
    resetUsed f a u = u := by
  unfold resetUsed
  rw [if_neg (by simpa using ha)]

theorem resetAvail_no_repeat {f : List Dish} {used : List String} {y : Option String}
    {m : Dish} {n : String} (hy : y = some n) (hu : n ∈ used)
    (hmem : m ∈ resetAvail f (availableFor f used) y) (hmn : m.name = n) :
    f.length = 1 ∨ n = "" := by
  subst hy
  unfold resetAvail at hmem
  by_cases hA : (availableFor f used).isEmpty = true
  · rw [if_pos hA] at hmem
    by_cases hcond : (truthy (some n) && decide (f.length > 1)) = true
    · rw [if_pos hcond] at hmem
      have hne := of_decide_eq_true (List.mem_filter.mp hmem).2
      simp only [Option.getD_some] at hne
      exact absurd hmn hne
    · rw [if_neg hcond] at hmem
      rcases Bool.and_eq_false_iff.mp (Bool.not_eq_true _ |>.mp hcond) with ht | hl
      · right
        have : ¬(n ≠ "") := by
          intro hne
          rw [show truthy (some n) = decide (n ≠ "") from rfl, decide_eq_true hne] at ht
          exact absurd ht (by simp)
        exact not_not.mp this
      · left
        have h1 : ¬(f.length > 1) := by
          intro hgt
          rw [decide_eq_true hgt] at hl
          exact absurd hl (by simp)
        have h0 : 0 < f.length := List.length_pos.mpr (List.ne_nil_of_mem hmem)
        omega
  · rw [if_neg hA] at hmem
    have := (mem_availableFor.mp hmem).2
    rw [hmn] at this
    exact absurd hu this

/-- The pairwise no-immediate-repeat relation between the menu entries of
two consecutive days: a slot may only repeat when that category's filtered
list has a single entry, or when the repeated name is the empty string
(which the source's truthiness test treats as an unset "yesterday"). -/
def noRepeatRel (mF sF vF : List Dish) (e e' : DayPlan) : Prop :=
  (e'.main_meat = e.main_meat → mF.length = 1 ∨ e.main_meat = "") ∧
  (e'.semi_meat = e.semi_meat → sF.length = 1 ∨ e.semi_meat = "") ∧
  (e'.veggie = e.veggie → vF.length = 1 ∨ e.veggie = "")

theorem dayStep_no_repeat {mF sF vF : List Dish} {st : GenState} {d : String}
    {k1 k2 k3 : Nat} {st' : GenState} {e' : DayPlan}
    (h : dayStep mF sF vF st d k1 k2 k3 = some (st', e')) :
    (∀ n, st.y_main = some n → n ∈ st.used_dishes → e'.main_meat = n →
      mF.length = 1 ∨ n = "") ∧
    (∀ n, st.y_semi = some n → n ∈ st.used_dishes → e'.semi_meat = n →
      sF.length = 1 ∨ n = "") ∧
    (∀ n, st.y_veg = some n → n ∈ st.used_dishes → e'.veggie = n →
      vF.length = 1 ∨ n = "") := by
  obtain ⟨m, s, v, hmp, hsp, hvp, -, he0⟩ := dayStep_eq_some_iff.mp h
  subst he0
  refine ⟨fun n hy hu hrep => ?_, fun n hy hu hrep => ?_, fun n hy hu hrep => ?_⟩
  · exact resetAvail_no_repeat hy hu (by rw [← mainAvail]; exact pick_mem hmp) hrep
  · exact resetAvail_no_repeat hy hu (by rw [← semiAvail]; exact pick_mem hsp) hrep
  · exact resetAvail_no_repeat hy hu (by rw [← vegAvail]; exact pick_mem hvp) hrep

theorem runDays_chain : ∀ (ds : List String) (mF sF vF : List Dish) (st : GenState)
    (rand : Nat → Nat) (i : Nat) (plan : List DayPlan),
    runDays ds mF sF vF st rand i = some plan →
    ((∀ e' ∈ plan.head?,
        (∀ n, st.y_main = some n → n ∈ st.used_dishes → e'.main_meat = n →
          mF.length = 1 ∨ n = "") ∧
        (∀ n, st.y_semi = some n → n ∈ st.used_dishes → e'.semi_meat = n →
          sF.length = 1 ∨ n = "") ∧
        (∀ n, st.y_veg = some n → n ∈ st.used_dishes → e'.veggie = n →
          vF.length = 1 ∨ n = "")) ∧
      plan.Chain' (noRepeatRel mF sF vF)) := by
  intro ds
  induction ds with
  | nil =>
    intro mF sF vF st rand i plan h
    simp only [runDays, Option.some.injEq] at h
    subst h
    exact ⟨by simp, List.chain'_nil⟩
  | cons d rest ih =>
    intro mF sF vF st rand i plan h
    rw [runDays_cons_eq_some] at h
    obtain ⟨st', e, plan', hd, hr, rfl⟩ := h
    obtain ⟨ihHead, ihChain⟩ := ih mF sF vF st' rand (i + 1) plan' hr
    refine ⟨?_, List.chain'_cons'.mpr ⟨?_, ihChain⟩⟩
    · intro e' he'
      simp only [List.head?_cons, Option.mem_def, Option.some.injEq] at he'
      subst he'
      exact dayStep_no_repeat hd
    · intro e' he'
      obtain ⟨m, s, v, hmp, hsp, hvp, hst', he0⟩ := dayStep_eq_some_iff.mp hd
      obtain ⟨hM, hS, hV⟩ := ihHead e' he'
      refine ⟨fun hrep => ?_, fun hrep => ?_, fun hrep => ?_⟩
      · refine hM e.main_meat ?_ ?_ hrep
        · rw [hst', he0]
        · rw [hst', he0]
          simp
      · refine hS e.semi_meat ?_ ?_ hrep
        · rw [hst', he0]
        · rw [hst', he0]
          simp
      · refine hV e.veggie ?_ ?_ hrep
        · rw [hst', he0]
        · rw [hst', he0]
          simp

/-! ### No repetition within the week for large, name-disjoint pools -/

theorem names_subset_of_availableFor_eq_nil {f : List Dish} {u : List String}
    {acc : List String} (hnil : availableFor f u = [])
    (hused : ∀ n ∈ f.map Dish.name, (n ∈ u ↔ n ∈ acc)) :
    ∀ n ∈ f.map Dish.name, n ∈ acc := by
  intro n hn
  obtain ⟨dm, hdm, rfl⟩ := List.mem_map.mp hn
  exact (hused _ hn).mp (availableFor_eq_nil_iff.mp hnil dm hdm)

theorem length_le_of_names_subset {f : List Dish} {acc : List String}
    (hnd : (f.map Dish.name).Nodup) (hsub : ∀ n ∈ f.map Dish.name, n ∈ acc) :
    f.length ≤ acc.length := by
  have hsp : (f.map Dish.name).Subperm acc := List.subperm_of_subset hnd hsub
  simpa using hsp.length_le

theorem runDays_main_nodup : ∀ (ds : List String) (mF sF vF : List Dish)
    (rand : Nat → Nat) (i : Nat) (st : GenState) (acc : List String) (plan : List DayPlan),
    (mF.map Dish.name).Nodup →
    (∀ n ∈ mF.map Dish.name, n ∉ sF.map Dish.name) →
    (∀ n ∈ mF.map Dish.name, n ∉ vF.map Dish.name) →
    acc.Nodup →
    acc.length + ds.length ≤ mF.length →
    (∀ n ∈ mF.map Dish.name, (n ∈ st.used_dishes ↔ n ∈ acc)) →
    runDays ds mF sF vF st rand i = some plan →
    (acc ++ plan.map DayPlan.main_meat).Nodup := by
  intro ds
  induction ds with
  | nil =>
    intro mF sF vF rand i st acc plan hnd hdS hdV hacc hlen hused h
    simp only [runDays, Option.some.injEq] at h
    subst h
    simpa using hacc
  | cons d rest ih =>
    intro mF sF vF rand i st acc plan hnd hdS hdV hacc hlen hused h
    rw [runDays_cons_eq_some] at h
    obtain ⟨st', e, plan', hd, hr, rfl⟩ := h
    obtain ⟨m, s, v, hmp, hsp, hvp, hst', he0⟩ := dayStep_eq_some_iff.mp hd
    have hAne : availableFor mF st.used_dishes ≠ [] := by
      intro hnil
      have hsub := names_subset_of_availableFor_eq_nil hnil hused
      have hle := length_le_of_names_subset hnd hsub
      simp only [List.length_cons] at hlen
      omega
    have hmavail : mainAvail mF st = availableFor mF st.used_dishes := by
      unfold mainAvail
      exact resetAvail_of_ne_nil hAne
    rw [hmavail] at hmp
    have hmmem := pick_mem hmp
    have hmF : m ∈ mF := (mem_availableFor.mp hmmem).1
    have hmname : m.name ∈ mF.map Dish.name := List.mem_map_of_mem Dish.name hmF
    have hmnotu : m.name ∉ st.used_dishes := (mem_availableFor.mp hmmem).2
    have hmnacc : m.name ∉ acc := fun hin => hmnotu ((hused _ hmname).mpr hin)
    have hsname : s.name ∈ sF.map Dish.name :=
      List.mem_map_of_mem Dish.name (semiAvail_subset sF st (pick_mem hsp))
    have hvname : v.name ∈ vF.map Dish.name :=
      List.mem_map_of_mem Dish.name (vegAvail_subset vF st (pick_mem hvp))
    have husednew : ∀ n ∈ mF.map Dish.name,
        (n ∈ st'.used_dishes ↔ n ∈ acc ++ [m.name]) := by
      intro n hn
      have hnv : n ≠ v.name := fun heq => hdV n hn (heq ▸ hvname)
      have hns : n ≠ s.name := fun heq => hdS n hn (heq ▸ hsname)
      have hres : n ∈ usedAfterResets mF sF vF st ↔ n ∈ st.used_dishes := by
        unfold usedAfterResets
        rw [mem_resetUsed_of_notin (fun hmem => hdV n hn hmem),
          mem_resetUsed_of_notin (fun hmem => hdS n hn hmem),
          resetUsed_of_ne_nil hAne]
      rw [hst']
      simp only [List.mem_cons, List.mem_append, List.not_mem_nil, or_false]
      rw [hres, hused n hn]
      constructor
      · rintro (h1 | h1 | h1 | h1)
        · exact absurd h1 hnv
        · exact absurd h1 hns
        · exact Or.inr h1
        · exact Or.inl h1
      · rintro (h1 | h1)
        · exact Or.inr (Or.inr (Or.inr h1))
        · exact Or.inr (Or.inr (Or.inl h1))
    have haccnew : (acc ++ [m.name]).Nodup := by
      simp [List.nodup_append, hacc, List.disjoint_singleton, hmnacc]
    have hlennew : (acc ++ [m.name]).length + rest.length ≤ mF.length := by
      simp only [List.length_append, List.length_cons, List.length_nil] at hlen ⊢
      omega
    have hrec := ih mF sF vF rand (i + 1) st' (acc ++ [m.name]) plan' hnd hdS hdV
      haccnew hlennew husednew hr
    subst he0
    simpa [List.append_assoc] using hrec

theorem runDays_semi_nodup : ∀ (ds : List String) (mF sF vF : List Dish)
    (rand : Nat → Nat) (i : Nat) (st : GenState) (acc : List String) (plan : List DayPlan),
    (sF.map Dish.name).Nodup →
    (∀ n ∈ sF.map Dish.name, n ∉ mF.map Dish.name) →
    (∀ n ∈ sF.map Dish.name, n ∉ vF.map Dish.name) →
    acc.Nodup →
    acc.length + ds.length ≤ sF.length →
    (∀ n ∈ sF.map Dish.name, (n ∈ st.used_dishes ↔ n ∈ acc)) →
    runDays ds mF sF vF st rand i = some plan →
    (acc ++ plan.map DayPlan.semi_meat).Nodup := by
  intro ds
  induction ds with
  | nil =>
    intro mF sF vF rand i st acc plan hnd hdM hdV hacc hlen hused h
    simp only [runDays, Option.some.injEq] at h
    subst h
    simpa using hacc
  | cons d rest ih =>
    intro mF sF vF rand i st acc plan hnd hdM hdV hacc hlen hused h
    rw [runDays_cons_eq_some] at h
    obtain ⟨st', e, plan', hd, hr, rfl⟩ := h
    obtain ⟨m, s, v, hmp, hsp, hvp, hst', he0⟩ := dayStep_eq_some_iff.mp hd
    have hAne : availableFor sF st.used_dishes ≠ [] := by
      intro hnil
      have hsub := names_subset_of_availableFor_eq_nil hnil hused
      have hle := length_le_of_names_subset hnd hsub
      simp only [List.length_cons] at hlen
      omega
    have hsavail : semiAvail sF st = availableFor sF st.used_dishes := by
      unfold semiAvail
      exact resetAvail_of_ne_nil hAne
    rw [hsavail] at hsp
    have hsmem := pick_mem hsp
    have hsF : s ∈ sF := (mem_availableFor.mp hsmem).1
    have hsname : s.name ∈ sF.map Dish.name := List.mem_map_of_mem Dish.name hsF
    have hsnotu : s.name ∉ st.used_dishes := (mem_availableFor.mp hsmem).2
    have hsnacc : s.name ∉ acc := fun hin => hsnotu ((hused _ hsname).mpr hin)
    have hmname : m.name ∈ mF.map Dish.name :=
      List.mem_map_of_mem Dish.name (mainAvail_subset mF st (pick_mem hmp))
    have hvname : v.name ∈ vF.map Dish.name :=
      List.mem_map_of_mem Dish.name (vegAvail_subset vF st (pick_mem hvp))
    have husednew : ∀ n ∈ sF.map Dish.name,
        (n ∈ st'.used_dishes ↔ n ∈ acc ++ [s.name]) := by
      intro n hn
      have hnv : n ≠ v.name := fun heq => hdV n hn (heq ▸ hvname)
      have hnm : n ≠ m.name := fun heq => hdM n hn (heq ▸ hmname)
      have hres : n ∈ usedAfterResets mF sF vF st ↔ n ∈ st.used_dishes := by
        unfold usedAfterResets
        rw [mem_resetUsed_of_notin (fun hmem => hdV n hn hmem),
          resetUsed_of_ne_nil hAne,
          mem_resetUsed_of_notin (fun hmem => hdM n hn hmem)]
      rw [hst']
      simp only [List.mem_cons, List.mem_append, List.not_mem_nil, or_false]
      rw [hres, hused n hn]
      constructor
      · rintro (h1 | h1 | h1 | h1)
        · exact absurd h1 hnv
        · exact Or.inr h1
        · exact absurd h1 hnm
        · exact Or.inl h1
      · rintro (h1 | h1)
        · exact Or.inr (Or.inr (Or.inr h1))
        · exact Or.inr (Or.inl h1)
    have haccnew : (acc ++ [s.name]).Nodup := by
      simp [List.nodup_append, hacc, List.disjoint_singleton, hsnacc]
    have hlennew : (acc ++ [s.name]).length + rest.length ≤ sF.length := by
      simp only [List.length_append, List.length_cons, List.length_nil] at hlen ⊢
      omega
    have hrec := ih mF sF vF rand (i + 1) st' (acc ++ [s.name]) plan' hnd hdM hdV
      haccnew hlennew husednew hr
    subst he0
    simpa [List.append_assoc] using hrec

theorem runDays_veg_nodup : ∀ (ds : List String) (mF sF vF : List Dish)
    (rand : Nat → Nat) (i : Nat) (st : GenState) (acc : List String) (plan : List DayPlan),
    (vF.map Dish.name).Nodup →
    (∀ n ∈ vF.map Dish.name, n ∉ mF.map Dish.name) →
    (∀ n ∈ vF.map Dish.name, n ∉ sF.map Dish.name) →
    acc.Nodup →
    acc.length + ds.length ≤ vF.length →
    (∀ n ∈ vF.map Dish.name, (n ∈ st.used_dishes ↔ n ∈ acc)) →
    runDays ds mF sF vF st rand i = some plan →
    (acc ++ plan.map DayPlan.veggie).Nodup := by
  intro ds
  induction ds with
  | nil =>
    intro mF sF vF rand i st acc plan hnd hdM hdS hacc hlen hused h
    simp only [runDays, Option.some.injEq] at h
    subst h
    simpa using hacc
  | cons d rest ih =>
    intro mF sF vF rand i st acc plan hnd hdM hdS hacc hlen hused h
    rw [runDays_cons_eq_some] at h
    obtain ⟨st', e, plan', hd, hr, rfl⟩ := h
    obtain ⟨m, s, v, hmp, hsp, hvp, hst', he0⟩ := dayStep_eq_some_iff.mp hd
    have hAne : availableFor vF st.used_dishes ≠ [] := by
      intro hnil
      have hsub := names_subset_of_availableFor_eq_nil hnil hused
      have hle := length_le_of_names_subset hnd hsub
      simp only [List.length_cons] at hlen
      omega
    have hvavail : vegAvail vF st = availableFor vF st.used_dishes := by
      unfold vegAvail
      exact resetAvail_of_ne_nil hAne
    rw [hvavail] at hvp
    have hvmem := pick_mem hvp
    have hvF : v ∈ vF := (mem_availableFor.mp hvmem).1
    have hvname : v.name ∈ vF.map Dish.name := List.mem_map_of_mem Dish.name hvF
    have hvnotu : v.name ∉ st.used_dishes := (mem_availableFor.mp hvmem).2
    have hvnacc : v.name ∉ acc := fun hin => hvnotu ((hused _ hvname).mpr hin)
    have hmname : m.name ∈ mF.map Dish.name :=
      List.mem_map_of_mem Dish.name (mainAvail_subset mF st (pick_mem hmp))
    have hsname : s.name ∈ sF.map Dish.name :=
      List.mem_map_of_mem Dish.name (semiAvail_subset sF st (pick_mem hsp))
    have husednew : ∀ n ∈ vF.map Dish.name,
        (n ∈ st'.used_dishes ↔ n ∈ acc ++ [v.name]) := by
      intro n hn
      have hns : n ≠ s.name := fun heq => hdS n hn (heq ▸ hsname)
      have hnm : n ≠ m.name := fun heq => hdM n hn (heq ▸ hmname)
      have hres : n ∈ usedAfterResets mF sF vF st ↔ n ∈ st.used_dishes := by
        unfold usedAfterResets
        rw [resetUsed_of_ne_nil hAne,
          mem_resetUsed_of_notin (fun hmem => hdS n hn hmem),
          mem_resetUsed_of_notin (fun hmem => hdM n hn hmem)]
      rw [hst']
      simp only [List.mem_cons, List.mem_append, List.not_mem_nil, or_false]
      rw [hres, hused n hn]
      constructor
      · rintro (h1 | h1 | h1 | h1)
        · exact Or.inr h1
        · exact absurd h1 hns
        · exact absurd h1 hnm
        · exact Or.inl h1
      · rintro (h1 | h1)
        · exact Or.inr (Or.inr (Or.inr h1))
        · exact Or.inl h1
    have haccnew : (acc ++ [v.name]).Nodup := by
      simp [List.nodup_append, hacc, List.disjoint_singleton, hvnacc]
    have hlennew : (acc ++ [v.name]).length + rest.length ≤ vF.length := by
      simp only [List.length_append, List.length_cons, List.length_nil] at hlen ⊢
      omega
    have hrec := ih mF sF vF rand (i + 1) st' (acc ++ [v.name]) plan' hnd hdM hdS
      haccnew hlennew husednew hr
    subst he0
    simpa [List.append_assoc] using hrec

theorem generate_infeasible_iff {cat : Catalog} {nl ns : Bool} {rand : Nat → Nat} :
    generate_weekly_menu cat nl ns rand = .infeasible ↔
      (filter_dishes cat.main_meat nl ns = [] ∨ filter_dishes cat.semi_meat nl ns = [] ∨
       filter_dishes cat.veggie nl ns = []) := by
  rw [generate_eq]
  split
  · next hc =>
    simp only [Bool.or_eq_true, List.isEmpty_iff] at hc
    constructor
    · intro _
      exact hc.elim (fun h' => h'.elim Or.inl (fun h => Or.inr (Or.inl h)))
        (fun h => Or.inr (Or.inr h))
    · intro _
      rfl
  · next hc =>
    have hne : filter_dishes cat.main_meat nl ns ≠ [] ∧ filter_dishes cat.semi_meat nl ns ≠ [] ∧
        filter_dishes cat.veggie nl ns ≠ [] := by
      rcases Bool.not_eq_true _ |>.mp hc |> Bool.or_eq_false_iff.mp with ⟨hab, h3⟩
      rcases Bool.or_eq_false_iff.mp hab with ⟨h1, h2⟩
      exact ⟨List.isEmpty_eq_false.mp h1, List.isEmpty_eq_false.mp h2,
        List.isEmpty_eq_false.mp h3⟩
    obtain ⟨h1, h2, h3⟩ := hne
    generalize runDays weekDays (filter_dishes cat.main_meat nl ns)
        (filter_dishes cat.semi_meat nl ns) (filter_dishes cat.veggie nl ns)
        initState rand 0 = r
    cases r with
    | none => simp [h1, h2, h3]
    | some p => simp [h1, h2, h3]

/-! ### The claims -/

/-- Claim C2 (confirmed): `generate_weekly_menu` returns the infeasibility
sentinel (`None`) exactly when at least one of the three category lists is
empty after filtering, and — for catalogs satisfying the data-model
invariant that names are unique within each category — this is its only
failure outcome: otherwise a full plan is returned, never anything
incomplete. -/
theorem claim_C2 (cat : Catalog) (nl ns : Bool) (rand : Nat → Nat)
    (hm : (cat.main_meat.map Dish.name).Nodup) (hs : (cat.semi_meat.map Dish.name).Nodup)
    (hv : (cat.veggie.map Dish.name).Nodup) :
    (generate_weekly_menu cat nl ns rand = .infeasible ↔
      (filter_dishes cat.main_meat nl ns = [] ∨ filter_dishes cat.semi_meat nl ns = [] ∨
       filter_dishes cat.veggie nl ns = [])) ∧
    (generate_weekly_menu cat nl ns rand = .infeasible ∨
      ∃ plan, generate_weekly_menu cat nl ns rand = .ok plan ∧ plan.length = 5) := by
  refine ⟨generate_infeasible_iff, ?_⟩
  by_cases h1 : filter_dishes cat.main_meat nl ns = []
  · exact Or.inl (generate_infeasible_iff.mpr (Or.inl h1))
  by_cases h2 : filter_dishes cat.semi_meat nl ns = []
  · exact Or.inl (generate_infeasible_iff.mpr (Or.inr (Or.inl h2)))
  by_cases h3 : filter_dishes cat.veggie nl ns = []
  · exact Or.inl (generate_infeasible_iff.mpr (Or.inr (Or.inr h3)))
  right
  obtain ⟨plan, hrun⟩ := runDays_isSome weekDays initState rand 0 h1 h2 h3
    (filter_dishes_names_nodup nl ns hm) (filter_dishes_names_nodup nl ns hs)
    (filter_dishes_names_nodup nl ns hv)
  refine ⟨plan, generate_ok_iff.mpr ⟨h1, h2, h3, hrun⟩, ?_⟩
  have hmap := runDays_map_day weekDays _ _ _ _ _ _ _ hrun
  have : (plan.map DayPlan.day).length = weekDays.length := by rw [hmap]
  simpa [weekDays] using this

/-- Claim C2 witness at a concrete catalog. -/
theorem claim_C2_witness :
    (generate_weekly_menu
        ⟨[⟨"M1", none, none⟩, ⟨"M2", none, none⟩, ⟨"M3", none, none⟩, ⟨"M4", none, none⟩,
          ⟨"M5", none, none⟩], [⟨"S1", none, none⟩], [⟨"V1", none, none⟩, ⟨"V2", none, none⟩]⟩
        false false (fun _ => 0) = .infeasible ↔
      (filter_dishes [⟨"M1", none, none⟩, ⟨"M2", none, none⟩, ⟨"M3", none, none⟩,
          ⟨"M4", none, none⟩, ⟨"M5", none, none⟩] false false = [] ∨
       filter_dishes [⟨"S1", none, none⟩] false false = [] ∨
       filter_dishes [⟨"V1", none, none⟩, ⟨"V2", none, none⟩] false false = [])) ∧
    (generate_weekly_menu
        ⟨[⟨"M1", none, none⟩, ⟨"M2", none, none⟩, ⟨"M3", none, none⟩, ⟨"M4", none, none⟩,
          ⟨"M5", none, none⟩], [⟨"S1", none, none⟩], [⟨"V1", none, none⟩, ⟨"V2", none, none⟩]⟩
        false false (fun _ => 0) = .infeasible ∨
      ∃ plan, generate_weekly_menu
        ⟨[⟨"M1", none, none⟩, ⟨"M2", none, none⟩, ⟨"M3", none, none⟩, ⟨"M4", none, none⟩,
          ⟨"M5", none, none⟩], [⟨"S1", none, none⟩], [⟨"V1", none, none⟩, ⟨"V2", none, none⟩]⟩
        false false (fun _ => 0) = .ok plan ∧ plan.length = 5) :=
  claim_C2 _ false false _ (by decide) (by decide) (by decide)

/-- Claim C3 (confirmed): whenever all three filtered pools are non-empty
(and the catalog satisfies the per-category name-uniqueness invariant),
the generator returns a plan of exactly 5 entries labelled Monday through
Friday in order. -/
theorem claim_C3 (cat : Catalog) (nl ns : Bool) (rand : Nat → Nat)
    (hm : (cat.main_meat.map Dish.name).Nodup) (hs : (cat.semi_meat.map Dish.name).Nodup)
    (hv : (cat.veggie.map Dish.name).Nodup)
    (h1 : filter_dishes cat.main_meat nl ns ≠ [])
    (h2 : filter_dishes cat.semi_meat nl ns ≠ [])
    (h3 : filter_dishes cat.veggie nl ns ≠ []) :
    ∃ plan, generate_weekly_menu cat nl ns rand = .ok plan ∧ plan.length = 5 ∧
      plan.map DayPlan.day = ["周一", "周二", "周三", "周四", "周五"] := by
  obtain ⟨plan, hrun⟩ := runDays_isSome weekDays initState rand 0 h1 h2 h3
    (filter_dishes_names_nodup nl ns hm) (filter_dishes_names_nodup nl ns hs)
    (filter_dishes_names_nodup nl ns hv)
  have hmap := runDays_map_day weekDays _ _ _ _ _ _ _ hrun
  refine ⟨plan, generate_ok_iff.mpr ⟨h1, h2, h3, hrun⟩, ?_, hmap⟩
  have : (plan.map DayPlan.day).length = weekDays.length := by rw [hmap]
  simpa [weekDays] using this

/-- Claim C3 witness at a concrete catalog. -/
theorem claim_C3_witness :
    ∃ plan, generate_weekly_menu
        ⟨[⟨"M1", none, none⟩, ⟨"M2", none, none⟩, ⟨"M3", none, none⟩, ⟨"M4", none, none⟩,
          ⟨"M5", none, none⟩], [⟨"S1", none, none⟩], [⟨"V1", none, none⟩, ⟨"V2", none, none⟩]⟩
        false false (fun _ => 0) = .ok plan ∧ plan.length = 5 ∧
      plan.map DayPlan.day = ["周一", "周二", "周三", "周四", "周五"] :=
  claim_C3 _ false false _ (by decide) (by decide) (by decide) (by decide) (by decide)
    (by decide)

/-- Claim C4 (confirmed): every dish name appearing in a returned plan is
the name of a catalog dish of the matching category that survives the
filters: when `no_lamb` is set its (defaulted) `has_lamb` tag is false,
and when `no_spicy` is set its (defaulted) `has_spicy` tag is false; a
missing tag counts as false. -/
theorem claim_C4 (cat : Catalog) (nl ns : Bool) (rand : Nat → Nat) (plan : List DayPlan)
    (h : generate_weekly_menu cat nl ns rand = .ok plan) :
    ∀ e ∈ plan,
      (∃ d ∈ cat.main_meat, d.name = e.main_meat ∧
        (nl = true → d.has_lamb.getD false = false) ∧
        (ns = true → d.has_spicy.getD false = false)) ∧
      (∃ d ∈ cat.semi_meat, d.name = e.semi_meat ∧
        (nl = true → d.has_lamb.getD false = false) ∧
        (ns = true → d.has_spicy.getD false = false)) ∧
      (∃ d ∈ cat.veggie, d.name = e.veggie ∧
        (nl = true → d.has_lamb.getD false = false) ∧
        (ns = true → d.has_spicy.getD false = false)) := by
  obtain ⟨-, -, -, hrun⟩ := generate_ok_iff.mp h
  intro e he
  obtain ⟨⟨m, hmF, hmn⟩, ⟨s, hsF, hsn⟩, ⟨v, hvF, hvn⟩⟩ :=
    runDays_mem weekDays _ _ _ _ _ _ _ hrun e he
  obtain ⟨hmC, hml, hms⟩ := mem_filter_dishes.mp hmF
  obtain ⟨hsC, hsl, hss⟩ := mem_filter_dishes.mp hsF
  obtain ⟨hvC, hvl, hvs⟩ := mem_filter_dishes.mp hvF
  exact ⟨⟨m, hmC, hmn, hml, hms⟩, ⟨s, hsC, hsn, hsl, hss⟩, ⟨v, hvC, hvn, hvl, hvs⟩⟩

/-- Claim C4 witness: a catalog with one lamb dish and one spicy dish,
both filters on; the day-1 entry only names untagged dishes. -/
theorem claim_C4_witness :
    (∃ d ∈ [⟨"L", some true, none⟩, ⟨"M", none, none⟩], Dish.name d = "M" ∧
      (true = true → (Dish.has_lamb d).getD false = false) ∧
      (true = true → (Dish.has_spicy d).getD false = false)) ∧
    (∃ d ∈ [⟨"SP", none, some true⟩, ⟨"S", none, none⟩], Dish.name d = "S" ∧
      (true = true → (Dish.has_lamb d).getD false = false) ∧
      (true = true → (Dish.has_spicy d).getD false = false)) ∧
    (∃ d ∈ [(⟨"V", none, none⟩ : Dish)], Dish.name d = "V" ∧
      (true = true → (Dish.has_lamb d).getD false = false) ∧
      (true = true → (Dish.has_spicy d).getD false = false)) :=
  claim_C4 ⟨[⟨"L", some true, none⟩, ⟨"M", none, none⟩],
      [⟨"SP", none, some true⟩, ⟨"S", none, none⟩], [⟨"V", none, none⟩]⟩
    true true (fun _ => 0)
    [⟨"周一", "M", "S", "V"⟩, ⟨"周二", "M", "S", "V"⟩, ⟨"周三", "M", "S", "V"⟩,
      ⟨"周四", "M", "S", "V"⟩, ⟨"周五", "M", "S", "V"⟩] (by decide)
    ⟨"周一", "M", "S", "V"⟩ (by decide)

/-- Claim C7 (confirmed, strengthened form): if every dish of a category's
filtered pool bears the same name (in particular when the pool holds
exactly one dish), every entry of a returned plan carries that name in
that category's slot — on all 5 days. -/
theorem claim_C7 (cat : Catalog) (nl ns : Bool) (rand : Nat → Nat) (plan : List DayPlan)
    (h : generate_weekly_menu cat nl ns rand = .ok plan) (n : String) :
    ((∀ d ∈ filter_dishes cat.main_meat nl ns, d.name = n) →
      ∀ e ∈ plan, e.main_meat = n) ∧
    ((∀ d ∈ filter_dishes cat.semi_meat nl ns, d.name = n) →
      ∀ e ∈ plan, e.semi_meat = n) ∧
    ((∀ d ∈ filter_dishes cat.veggie nl ns, d.name = n) →
      ∀ e ∈ plan, e.veggie = n) := by
  obtain ⟨-, -, -, hrun⟩ := generate_ok_iff.mp h
  refine ⟨fun hall e he => ?_, fun hall e he => ?_, fun hall e he => ?_⟩
  · obtain ⟨⟨m, hmF, hmn⟩, -, -⟩ := runDays_mem weekDays _ _ _ _ _ _ _ hrun e he
    rw [← hmn]
    exact hall m hmF
  · obtain ⟨-, ⟨s, hsF, hsn⟩, -⟩ := runDays_mem weekDays _ _ _ _ _ _ _ hrun e he
    rw [← hsn]
    exact hall s hsF
  · obtain ⟨-, -, ⟨v, hvF, hvn⟩⟩ := runDays_mem weekDays _ _ _ _ _ _ _ hrun e he
    rw [← hvn]
    exact hall v hvF

/-- Claim C7 witness: in the concrete catalog the semi-meat pool is the
single dish S1, and the day-2 entry indeed serves S1. -/
theorem claim_C7_witness :
    (⟨"周二", "M2", "S1", "V2"⟩ : DayPlan).semi_meat = "S1" :=
  (claim_C7 ⟨[⟨"M1", none, none⟩, ⟨"M2", none, none⟩, ⟨"M3", none, none⟩, ⟨"M4", none, none⟩,
        ⟨"M5", none, none⟩], [⟨"S1", none, none⟩], [⟨"V1", none, none⟩, ⟨"V2", none, none⟩]⟩
      false false (fun _ => 0)
      [⟨"周一", "M1", "S1", "V1"⟩, ⟨"周二", "M2", "S1", "V2"⟩, ⟨"周三", "M3", "S1", "V1"⟩,
        ⟨"周四", "M4", "S1", "V2"⟩, ⟨"周五", "M5", "S1", "V1"⟩] (by decide) "S1").2.1
    (by decide) ⟨"周二", "M2", "S1", "V2"⟩ (by decide)

/-- Claim C8 (confirmed): under the feasibility precondition (all three
filtered pools non-empty) and the data-model invariant (names unique
within each category), every available list handed to a `random.choice`
is non-empty — the reset block always leaves a non-empty list — so the
day loop never hits an error branch and the run produces a plan. -/
theorem claim_C8 (cat : Catalog) (nl ns : Bool) (rand : Nat → Nat)
    (hm : (cat.main_meat.map Dish.name).Nodup) (hs : (cat.semi_meat.map Dish.name).Nodup)
    (hv : (cat.veggie.map Dish.name).Nodup)
    (h1 : filter_dishes cat.main_meat nl ns ≠ [])
    (h2 : filter_dishes cat.semi_meat nl ns ≠ [])
    (h3 : filter_dishes cat.veggie nl ns ≠ []) :
    (∀ (f a : List Dish) (y : Option String), f ≠ [] → (f.map Dish.name).Nodup →
      resetAvail f a y ≠ []) ∧
    (∀ (st : GenState), mainAvail (filter_dishes cat.main_meat nl ns) st ≠ [] ∧
      semiAvail (filter_dishes cat.semi_meat nl ns) st ≠ [] ∧
      vegAvail (filter_dishes cat.veggie nl ns) st ≠ []) ∧
    ∃ plan, generate_weekly_menu cat nl ns rand = .ok plan := by
  refine ⟨fun f a y hf hnd => resetAvail_ne_nil hf hnd, fun st => ?_, ?_⟩
  · refine ⟨?_, ?_, ?_⟩
    · unfold mainAvail
      exact resetAvail_ne_nil h1 (filter_dishes_names_nodup nl ns hm)
    · unfold semiAvail
      exact resetAvail_ne_nil h2 (filter_dishes_names_nodup nl ns hs)
    · unfold vegAvail
      exact resetAvail_ne_nil h3 (filter_dishes_names_nodup nl ns hv)
  · obtain ⟨plan, hrun⟩ := runDays_isSome weekDays initState rand 0 h1 h2 h3
      (filter_dishes_names_nodup nl ns hm) (filter_dishes_names_nodup nl ns hs)
      (filter_dishes_names_nodup nl ns hv)
    exact ⟨plan, generate_ok_iff.mpr ⟨h1, h2, h3, hrun⟩⟩

/-- Claim C8 witness at a concrete catalog. -/
theorem claim_C8_witness :
    (∀ (f a : List Dish) (y : Option String), f ≠ [] → (f.map Dish.name).Nodup →
      resetAvail f a y ≠ []) ∧
    (∀ (st : GenState), mainAvail (filter_dishes [⟨"M1", none, none⟩, ⟨"M2", none, none⟩,
        ⟨"M3", none, none⟩, ⟨"M4", none, none⟩, ⟨"M5", none, none⟩] false false) st ≠ [] ∧
      semiAvail (filter_dishes [⟨"S1", none, none⟩] false false) st ≠ [] ∧
      vegAvail (filter_dishes [⟨"V1", none, none⟩, ⟨"V2", none, none⟩] false false) st ≠ []) ∧
    ∃ plan, generate_weekly_menu
      ⟨[⟨"M1", none, none⟩, ⟨"M2", none, none⟩, ⟨"M3", none, none⟩, ⟨"M4", none, none⟩,
        ⟨"M5", none, none⟩], [⟨"S1", none, none⟩], [⟨"V1", none, none⟩, ⟨"V2", none, none⟩]⟩
      false false (fun _ => 0) = .ok plan :=
  claim_C8 ⟨[⟨"M1", none, none⟩, ⟨"M2", none, none⟩, ⟨"M3", none, none⟩, ⟨"M4", none, none⟩,
      ⟨"M5", none, none⟩], [⟨"S1", none, none⟩], [⟨"V1", none, none⟩, ⟨"V2", none, none⟩]⟩
    false false (fun _ => 0) (by decide) (by decide) (by decide) (by decide) (by decide)
    (by decide)

/-- Claim C9 (counterexample): a read failure other than a missing file —
a `PermissionError` from `open`, say — is not caught by either `except`
clause of `load_dishes`, so the source raises instead of returning a
catalog: the embedded function yields `none`, not the empty catalog the
claim promises for every read or parse failure. -/
theorem claim_C9_counterexample :
    load_dishes .otherError = none ∧
    load_dishes .otherError ≠
      some { main_meat := [], semi_meat := [], veggie := [] } := by
  refine ⟨rfl, by decide⟩

/-- Claim C9 (amended): for the two failure modes the loader's
`try/except` catches — missing file (`FileNotFoundError`) and malformed
JSON (`json.JSONDecodeError`) — `load_dishes` does not raise but returns
the catalog with all three categories present as empty lists, which the
planner then reports as infeasible; any other read or parse failure
propagates as an uncaught exception. -/
theorem claim_C9_amended (o : LoadOutcome) (nl ns : Bool) (rand : Nat → Nat)
    (h : o = .fileNotFound ∨ o = .jsonDecodeError) :
    load_dishes o = some { main_meat := [], semi_meat := [], veggie := [] } ∧
    generate_weekly_menu { main_meat := [], semi_meat := [], veggie := [] } nl ns rand =
      .infeasible ∧
    load_dishes .otherError = none := by
  have hcat : load_dishes o = some emptyCatalog := by
    rcases h with rfl | rfl <;> rfl
  refine ⟨hcat, ?_, rfl⟩
  apply generate_infeasible_iff.mpr
  left
  show filter_dishes [] nl ns = []
  cases nl <;> cases ns <;> rfl

/-- Claim C9 amended, witnessed at the missing-file outcome. -/
theorem claim_C9_amended_witness :
    load_dishes .fileNotFound = some { main_meat := [], semi_meat := [], veggie := [] } ∧
    generate_weekly_menu { main_meat := [], semi_meat := [], veggie := [] } false false
      (fun _ => 0) = .infeasible ∧
    load_dishes .otherError = none :=
  claim_C9_amended .fileNotFound false false (fun _ => 0) (Or.inl rfl)

/-- Claim C10 (confirmed): the generator keeps one `used_dishes` set
shared by the three categories.  After a day runs, all three chosen names
sit in that single set; a name survives the day if it belongs to none of
the three pools (only a reset subtraction can drop it); a category's reset
subtracts every name of that category's filtered list from the shared set,
whichever category contributed it; and each available list is exactly the
filtered list minus the whole shared set, so a name chosen in any category
is excluded from every category's available list computed from the updated
set. -/
theorem claim_C10 :
    (∀ (mF sF vF : List Dish) (st : GenState) (d : String) (k1 k2 k3 : Nat)
        (st' : GenState) (e : DayPlan), dayStep mF sF vF st d k1 k2 k3 = some (st', e) →
        (e.main_meat ∈ st'.used_dishes ∧ e.semi_meat ∈ st'.used_dishes ∧
          e.veggie ∈ st'.used_dishes) ∧
        (∀ n ∈ st.used_dishes, n ∉ mF.map Dish.name → n ∉ sF.map Dish.name →
          n ∉ vF.map Dish.name → n ∈ st'.used_dishes) ∧
        (∀ (f : List Dish) (dd : Dish), dd ∈ availableFor f st'.used_dishes →
          dd.name ≠ e.main_meat ∧ dd.name ≠ e.semi_meat ∧ dd.name ≠ e.veggie)) ∧
    (∀ (f : List Dish) (used : List String),
      resetUsed f [] used = used.filter (fun n => decide (n ∉ f.map Dish.name))) ∧
    (∀ (f : List Dish) (u : List String) (dd : Dish),
      dd ∈ availableFor f u ↔ dd ∈ f ∧ dd.name ∉ u) := by
  refine ⟨?_, fun f used => rfl, fun f u dd => mem_availableFor⟩
  intro mF sF vF st d k1 k2 k3 st' e h
  obtain ⟨m, s, v, -, -, -, hst', he0⟩ := dayStep_eq_some_iff.mp h
  subst hst' he0
  refine ⟨⟨by simp, by simp, by simp⟩, ?_, ?_⟩
  · intro n hn hnm hns hnv
    simp only [List.mem_cons]
    refine Or.inr (Or.inr (Or.inr ?_))
    unfold usedAfterResets
    rw [mem_resetUsed_of_notin hnv, mem_resetUsed_of_notin hns, mem_resetUsed_of_notin hnm]
    exact hn
  · intro f dd hdd
    have hnot := (mem_availableFor.mp hdd).2
    simp only [List.mem_cons, not_or] at hnot
    exact ⟨hnot.2.2.1, hnot.2.1, hnot.1⟩

/-- Claim C10 witness: concrete day step in which the name X chosen by the
main category lands in the shared set and is gone from the semi category's
next available list. -/
theorem claim_C10_witness :
    (("X" ∈ ["P", "Y", "X"] ∧ "Y" ∈ ["P", "Y", "X"] ∧ "P" ∈ ["P", "Y", "X"]) ∧
      (∀ n ∈ ([] : List String), n ∉ [⟨"X", none, none⟩].map Dish.name →
        n ∉ [⟨"Y", none, none⟩, ⟨"X", none, none⟩, ⟨"Z", none, none⟩].map Dish.name →
        n ∉ [⟨"P", none, none⟩].map Dish.name → n ∈ ["P", "Y", "X"]) ∧
      (∀ (f : List Dish) (dd : Dish), dd ∈ availableFor f ["P", "Y", "X"] →
        dd.name ≠ "X" ∧ dd.name ≠ "Y" ∧ dd.name ≠ "P")) :=
  claim_C10.1 [⟨"X", none, none⟩] [⟨"Y", none, none⟩, ⟨"X", none, none⟩, ⟨"Z", none, none⟩]
    [⟨"P", none, none⟩] initState "周一" 0 0 0
    { used_dishes := ["P", "Y", "X"], y_main := some "X", y_semi := some "Y",
      y_veg := some "P" }
    { day := "周一", main_meat := "X", semi_meat := "Y", veggie := "P" } (by decide)

/-- Claim C1 (counterexample): catalog with main=[X], semi=[Y,X,Z],
veggie=[P] (the name X occurs in two categories) and index oracle 0.
Day 1 selects X only in the main category and Y in semi, yet at the start
of day 2 the semi category's available list is [Z]: the dish X was removed
from semi's availability by main's selection, and the list differs from
"semi's filtered list minus semi's own used names {Y}", which would be
[X, Z].  This refutes both parts of the claim. -/
theorem claim_C1_counterexample :
    dayStep [⟨"X", none, none⟩] [⟨"Y", none, none⟩, ⟨"X", none, none⟩, ⟨"Z", none, none⟩]
        [⟨"P", none, none⟩] initState "周一" 0 0 0 =
      some ({ used_dishes := ["P", "Y", "X"], y_main := some "X", y_semi := some "Y",
              y_veg := some "P" },
            { day := "周一", main_meat := "X", semi_meat := "Y", veggie := "P" }) ∧
    (⟨"X", none, none⟩ : Dish) ∈
      [(⟨"Y", none, none⟩ : Dish), ⟨"X", none, none⟩, ⟨"Z", none, none⟩] ∧
    availableFor [⟨"Y", none, none⟩, ⟨"X", none, none⟩, ⟨"Z", none, none⟩] ["P", "Y", "X"] =
      [⟨"Z", none, none⟩] ∧
    availableFor [⟨"Y", none, none⟩, ⟨"X", none, none⟩, ⟨"Z", none, none⟩] ["Y"] =
      [⟨"X", none, none⟩, ⟨"Z", none, none⟩] ∧
    availableFor [⟨"Y", none, none⟩, ⟨"X", none, none⟩, ⟨"Z", none, none⟩] ["P", "Y", "X"] ≠
      availableFor [⟨"Y", none, none⟩, ⟨"X", none, none⟩, ⟨"Z", none, none⟩] ["Y"] := by
  refine ⟨by decide, by decide, by decide, by decide, by decide⟩

/-- Claim C1 (amended): availability is computed against the single shared
used set, so after a day runs, each of the three names selected that day —
whichever category selected it — is excluded from the available list that
any category would compute from the updated shared set. -/
theorem claim_C1_amended (mF sF vF : List Dish) (st : GenState) (d : String)
    (k1 k2 k3 : Nat) (st' : GenState) (e : DayPlan)
    (h : dayStep mF sF vF st d k1 k2 k3 = some (st', e)) :
    ∀ (f : List Dish), ∀ dd ∈ availableFor f st'.used_dishes,
      dd.name ≠ e.main_meat ∧ dd.name ≠ e.semi_meat ∧ dd.name ≠ e.veggie := by
  obtain ⟨m, s, v, -, -, -, hst', he0⟩ := dayStep_eq_some_iff.mp h
  subst hst' he0
  intro f dd hdd
  have hnot := (mem_availableFor.mp hdd).2
  simp only [List.mem_cons, not_or] at hnot
  exact ⟨hnot.2.2.1, hnot.2.1, hnot.1⟩

/-- Claim C1 amended, witnessed on the day-1 step of the C1 scenario: the
dish Z, the only dish still available to the semi category on day 2,
carries none of the three names selected on day 1. -/
theorem claim_C1_amended_witness :
    (⟨"Z", none, none⟩ : Dish).name ≠ "X" ∧ (⟨"Z", none, none⟩ : Dish).name ≠ "Y" ∧
      (⟨"Z", none, none⟩ : Dish).name ≠ "P" :=
  claim_C1_amended [⟨"X", none, none⟩]
    [⟨"Y", none, none⟩, ⟨"X", none, none⟩, ⟨"Z", none, none⟩] [⟨"P", none, none⟩]
    initState "周一" 0 0 0
    { used_dishes := ["P", "Y", "X"], y_main := some "X", y_semi := some "Y",
      y_veg := some "P" }
    { day := "周一", main_meat := "X", semi_meat := "Y", veggie := "P" } (by decide)
    [⟨"Y", none, none⟩, ⟨"X", none, none⟩, ⟨"Z", none, none⟩] ⟨"Z", none, none⟩ (by decide)

/-- Claim C5 (counterexample): main and semi pools are both A,B,C,D,E —
five distinct names each, so the claim's premise holds for the main
category — yet the returned plan serves A in the main slot on both day 1
and day 4.  The semi category draws from the same shared used set, so the
main pool is exhausted after day 3 and resets early. -/
theorem claim_C5_counterexample :
    generate_weekly_menu
      ⟨[⟨"A", none, none⟩, ⟨"B", none, none⟩, ⟨"C", none, none⟩, ⟨"D", none, none⟩,
        ⟨"E", none, none⟩],
       [⟨"A", none, none⟩, ⟨"B", none, none⟩, ⟨"C", none, none⟩, ⟨"D", none, none⟩,
        ⟨"E", none, none⟩], [⟨"V", none, none⟩]⟩ false false
      (fun n => if n % 3 = 1 then 1 else 0) =
    .ok [⟨"周一", "A", "B", "V"⟩, ⟨"周二", "C", "D", "V"⟩, ⟨"周三", "E", "E", "V"⟩,
         ⟨"周四", "A", "B", "V"⟩, ⟨"周五", "C", "D", "V"⟩] ∧
    ((filter_dishes [⟨"A", none, none⟩, ⟨"B", none, none⟩, ⟨"C", none, none⟩,
        ⟨"D", none, none⟩, ⟨"E", none, none⟩] false false).map Dish.name).Nodup ∧
    (filter_dishes [⟨"A", none, none⟩, ⟨"B", none, none⟩, ⟨"C", none, none⟩,
        ⟨"D", none, none⟩, ⟨"E", none, none⟩] false false).length = 5 ∧
    ¬ (([⟨"周一", "A", "B", "V"⟩, ⟨"周二", "C", "D", "V"⟩, ⟨"周三", "E", "E", "V"⟩,
         ⟨"周四", "A", "B", "V"⟩, ⟨"周五", "C", "D", "V"⟩] : List DayPlan).map
        DayPlan.main_meat).Nodup := by
  refine ⟨by decide, by decide, by decide, by decide⟩

/-- Claim C5 (amended): if a category's filtered pool has at least 5
distinct names AND shares no name with the other two categories' filtered
pools, then no name repeats across the week in that category's slot.  The
disjointness condition is forced by the shared used set exhibited in the
counterexample. -/
theorem claim_C5_amended (cat : Catalog) (nl ns : Bool) (rand : Nat → Nat)
    (plan : List DayPlan) (h : generate_weekly_menu cat nl ns rand = .ok plan) :
    (((filter_dishes cat.main_meat nl ns).map Dish.name).Nodup →
      5 ≤ (filter_dishes cat.main_meat nl ns).length →
      (∀ n ∈ (filter_dishes cat.main_meat nl ns).map Dish.name,
        n ∉ (filter_dishes cat.semi_meat nl ns).map Dish.name ∧
        n ∉ (filter_dishes cat.veggie nl ns).map Dish.name) →
      (plan.map DayPlan.main_meat).Nodup) ∧
    (((filter_dishes cat.semi_meat nl ns).map Dish.name).Nodup →
      5 ≤ (filter_dishes cat.semi_meat nl ns).length →
      (∀ n ∈ (filter_dishes cat.semi_meat nl ns).map Dish.name,
        n ∉ (filter_dishes cat.main_meat nl ns).map Dish.name ∧
        n ∉ (filter_dishes cat.veggie nl ns).map Dish.name) →
      (plan.map DayPlan.semi_meat).Nodup) ∧
    (((filter_dishes cat.veggie nl ns).map Dish.name).Nodup →
      5 ≤ (filter_dishes cat.veggie nl ns).length →
      (∀ n ∈ (filter_dishes cat.veggie nl ns).map Dish.name,
        n ∉ (filter_dishes cat.main_meat nl ns).map Dish.name ∧
        n ∉ (filter_dishes cat.semi_meat nl ns).map Dish.name) →
      (plan.map DayPlan.veggie).Nodup) := by
  obtain ⟨-, -, -, hrun⟩ := generate_ok_iff.mp h
  refine ⟨fun hnd h5 hdisj => ?_, fun hnd h5 hdisj => ?_, fun hnd h5 hdisj => ?_⟩
  · have := runDays_main_nodup weekDays _ _ _ rand 0 initState [] plan hnd
      (fun n hn => (hdisj n hn).1) (fun n hn => (hdisj n hn).2) List.nodup_nil
      (by simpa [weekDays] using h5) (by simp [initState]) hrun
    simpa using this
  · have := runDays_semi_nodup weekDays _ _ _ rand 0 initState [] plan hnd
      (fun n hn => (hdisj n hn).1) (fun n hn => (hdisj n hn).2) List.nodup_nil
      (by simpa [weekDays] using h5) (by simp [initState]) hrun
    simpa using this
  · have := runDays_veg_nodup weekDays _ _ _ rand 0 initState [] plan hnd
      (fun n hn => (hdisj n hn).1) (fun n hn => (hdisj n hn).2) List.nodup_nil
      (by simpa [weekDays] using h5) (by simp [initState]) hrun
    simpa using this

/-- Claim C5 amended, witnessed: five main dishes disjoint from the other
pools give a week of five distinct main names. -/
theorem claim_C5_amended_witness :
    (([⟨"周一", "M1", "S1", "V1"⟩, ⟨"周二", "M2", "S1", "V2"⟩, ⟨"周三", "M3", "S1", "V1"⟩,
       ⟨"周四", "M4", "S1", "V2"⟩, ⟨"周五", "M5", "S1", "V1"⟩] : List DayPlan).map
      DayPlan.main_meat).Nodup :=
  (claim_C5_amended ⟨[⟨"M1", none, none⟩, ⟨"M2", none, none⟩, ⟨"M3", none, none⟩,
        ⟨"M4", none, none⟩, ⟨"M5", none, none⟩], [⟨"S1", none, none⟩],
        [⟨"V1", none, none⟩, ⟨"V2", none, none⟩]⟩ false false (fun _ => 0)
      [⟨"周一", "M1", "S1", "V1"⟩, ⟨"周二", "M2", "S1", "V2"⟩, ⟨"周三", "M3", "S1", "V1"⟩,
       ⟨"周四", "M4", "S1", "V2"⟩, ⟨"周五", "M5", "S1", "V1"⟩] (by decide)).1
    (by decide) (by decide) (by decide)

/-- Claim C6 (counterexample): main pool holds the two distinct dishes A
and "" (the empty name); the returned plan serves "" in the main slot on
both day 2 and day 3.  Python evaluates `yesterday_dishes["main_meat"]`
for truthiness, and the empty string is falsy, so the reset block skips
the used-yesterday removal. -/
theorem claim_C6_counterexample :
    generate_weekly_menu
      ⟨[⟨"A", none, none⟩, ⟨"", none, none⟩], [⟨"S", none, none⟩], [⟨"V", none, none⟩]⟩
      false false (fun n => if n = 6 then 1 else 0) =
    .ok [⟨"周一", "A", "S", "V"⟩, ⟨"周二", "", "S", "V"⟩, ⟨"周三", "", "S", "V"⟩,
         ⟨"周四", "A", "S", "V"⟩, ⟨"周五", "", "S", "V"⟩] ∧
    (filter_dishes [⟨"A", none, none⟩, ⟨"", none, none⟩] false false).length = 2 ∧
    ((filter_dishes [⟨"A", none, none⟩, ⟨"", none, none⟩] false false).map Dish.name).Nodup := by
  refine ⟨by decide, by decide, by decide⟩

/-- Claim C6 (amended): in a returned plan a category's slot never holds
the same name on two consecutive days, unless that category's filtered
list has exactly one entry or the repeated name is the empty string (which
the source's truthiness test treats as no "yesterday" value). -/
theorem claim_C6_amended (cat : Catalog) (nl ns : Bool) (rand : Nat → Nat)
    (plan : List DayPlan) (h : generate_weekly_menu cat nl ns rand = .ok plan) :
    plan.Chain' (noRepeatRel (filter_dishes cat.main_meat nl ns)
      (filter_dishes cat.semi_meat nl ns) (filter_dishes cat.veggie nl ns)) := by
  obtain ⟨-, -, -, hrun⟩ := generate_ok_iff.mp h
  exact (runDays_chain weekDays _ _ _ _ _ _ _ hrun).2

/-- Claim C6 amended, witnessed on a concrete run. -/
theorem claim_C6_amended_witness :
    ([⟨"周一", "M1", "S1", "V1"⟩, ⟨"周二", "M2", "S1", "V2"⟩, ⟨"周三", "M3", "S1", "V1"⟩,
      ⟨"周四", "M4", "S1", "V2"⟩, ⟨"周五", "M5", "S1", "V1"⟩] : List DayPlan).Chain'
      (noRepeatRel (filter_dishes [⟨"M1", none, none⟩, ⟨"M2", none, none⟩,
          ⟨"M3", none, none⟩, ⟨"M4", none, none⟩, ⟨"M5", none, none⟩] false false)
        (filter_dishes [⟨"S1", none, none⟩] false false)
        (filter_dishes [⟨"V1", none, none⟩, ⟨"V2", none, none⟩] false false)) :=
  claim_C6_amended ⟨[⟨"M1", none, none⟩, ⟨"M2", none, none⟩, ⟨"M3", none, none⟩,
      ⟨"M4", none, none⟩, ⟨"M5", none, none⟩], [⟨"S1", none, none⟩],
      [⟨"V1", none, none⟩, ⟨"V2", none, none⟩]⟩ false false (fun _ => 0)
    [⟨"周一", "M1", "S1", "V1"⟩, ⟨"周二", "M2", "S1", "V2"⟩, ⟨"周三", "M3", "S1", "V1"⟩,
     ⟨"周四", "M4", "S1", "V2"⟩, ⟨"周五", "M5", "S1", "V1"⟩] (by decide)

end WeeklyMenu
